import Mathlib

/-!
# Verification of the hotpod core subsystems

A shallow embedding, in Lean 4, of the core components of the hotpod
load-generation server: the concurrency admission tracker
(`internal/load`), the lifecycle state machine (`internal/server`),
the priority work queue (`internal/queue`), the fault-injection
controller (`internal/fault`), size parsing (`internal/config`) and
the workload handler parameter pipelines (`internal/handlers`).

Go source functions are translated into pure Lean functions: machine
integers become `Int`, maps become functions into `Option`, fallible
operations return explicit result types, randomness is passed in as an
oracle argument, and the injected clock is modelled by explicit virtual
time in milliseconds (a `Nat`).
-/

namespace Hotpod

/-! ## Admission tracker (`internal/load/tracker.go`)

`OpType` is a string type in Go; the tracker's map holds an atomic
counter for exactly the five known operation classes.  A map lookup for
any other class yields a nil pointer.  Concurrency is linearized: the
CAS loop of `Acquire` is equivalent, for any single interleaving, to an
atomic test-and-increment, which is what the sequential embedding does.
-/

/-- The five operation classes installed by `NewTracker`. -/
def knownOps : List String := ["cpu", "memory", "io", "latency", "work"]

/-- Embeds `load.Tracker`: the per-class cap and the counter map.
A class outside the map is `none`, mirroring the nil map entry. -/
structure Tracker where
  maxOps : Int
  counts : String → Option Int

/-- Embeds `load.NewTracker`: counters exist exactly for the five known
classes, all starting at zero. -/
def NewTracker (maxOps : Int) : Tracker :=
  { maxOps := maxOps
    counts := fun op => if op ∈ knownOps then some 0 else none }

/-- Result of `Tracker.Acquire`: `nilPanic` models the nil-pointer
dereference of `counter.Load()` when the class is not in the map,
`tooManyOps` models the `ErrTooManyOps` return, and `acquired` carries
the updated tracker (the release token always decrements the same
class's counter, so it is represented by `Tracker.release`). -/
inductive AcquireResult where
  | nilPanic
  | tooManyOps
  | acquired (t : Tracker)

/-- Updates one class's counter. -/
def Tracker.setCount (t : Tracker) (op : String) (n : Int) : Tracker :=
  { t with counts := fun o => if o = op then some n else t.counts o }

/-- Embeds `Tracker.Acquire`: look the counter up (nil for unknown
classes), fail when the cap is enabled and reached, else increment. -/
def Tracker.acquire (t : Tracker) (op : String) : AcquireResult :=
  match t.counts op with
  | none => .nilPanic
  | some current =>
    if t.maxOps > 0 ∧ current ≥ t.maxOps then .tooManyOps
    else .acquired (t.setCount op (current + 1))

/-- Embeds the release closure returned by a successful `Acquire`:
an unconditional decrement of the same class's counter.  The closure
captures a non-nil counter, so the `none` branch never fires for a
token that a successful acquire returned. -/
def Tracker.release (t : Tracker) (op : String) : Tracker :=
  match t.counts op with
  | none => t
  | some current => t.setCount op (current - 1)

/-- Embeds `Tracker.Count`: zero for a class with no counter. -/
def Tracker.count (t : Tracker) (op : String) : Int :=
  (t.counts op).getD 0

/-- Whether an acquire succeeded and returned a release token. -/
def AcquireResult.isAcquired : AcquireResult → Bool
  | .acquired _ => true
  | _ => false

/-- One event of a single-class acquire/release history: an `Acquire`
call, or the invocation of one previously returned release token. -/
inductive OpEvent where
  | acq
  | rel
deriving DecidableEq

/-- Runs a history of events against the tracker for one class `c`.
A failed acquire leaves the state unchanged (the handler returns
without a token); a release invokes a token. -/
def runTracker (c : String) (t : Tracker) : List OpEvent → Tracker
  | [] => t
  | .acq :: es =>
    match t.acquire c with
    | .acquired t2 => runTracker c t2 es
    | _ => runTracker c t es
  | .rel :: es => runTracker c (t.release c) es

/-- Number of release tokens outstanding after a history: successful
acquires minus releases.  Used to state well-formedness. -/
def pendingAfter (c : String) (t : Tracker) (pending : Nat) : List OpEvent → Nat
  | [] => pending
  | .acq :: es =>
    match t.acquire c with
    | .acquired t2 => pendingAfter c t2 (pending + 1) es
    | _ => pendingAfter c t pending es
  | .rel :: es => pendingAfter c (t.release c) (pending - 1) es

/-- A history is well formed when every release invokes a token that a
successful acquire has already returned, each token being invoked at
most once: at each release there is an outstanding token. -/
def wfTrace (c : String) (t : Tracker) (pending : Nat) : List OpEvent → Bool
  | [] => true
  | .acq :: es =>
    match t.acquire c with
    | .acquired t2 => wfTrace c t2 (pending + 1) es
    | _ => wfTrace c t pending es
  | .rel :: es => pending > 0 && wfTrace c (t.release c) (pending - 1) es

/-! ## Lifecycle state machine (`internal/server/lifecycle.go`)

The state is an atomic integer written by exactly two code paths:
`becomeReady` (run by the startup timer goroutine, or inline when the
startup duration is zero) stores `StateReady` unconditionally, and
`Shutdown` stores `StateShuttingDown` unconditionally.  An execution of
a lifecycle constructed with a positive startup duration is a sequence
of these two events applied to the initial `StateStarting`.
-/

/-- The three lifecycle states. -/
inductive LifState where
  | starting
  | ready
  | shuttingDown
deriving DecidableEq

/-- The two events that write the lifecycle state: the startup timer
firing (`waitForStartup` calling `becomeReady`), and a `Shutdown` call. -/
inductive LifEvent where
  | timerFire
  | shutdown
deriving DecidableEq

/-- One state write.  `becomeReady` is `lc.state.Store(StateReady)` and
`Shutdown` begins with `lc.state.Store(StateShuttingDown)`; neither
checks the current state. -/
def lifStep (_s : LifState) (e : LifEvent) : LifState :=
  match e with
  | .timerFire => .ready
  | .shutdown => .shuttingDown

/-- Runs a sequence of lifecycle events. -/
def lifRun (s : LifState) : List LifEvent → LifState
  | [] => s
  | e :: es => lifRun (lifStep s e) es

/-- Embeds the polling loop of `Lifecycle.Shutdown` on the injected
clock (virtual time in milliseconds): while `inFlight > 0`, break once
`now` is past `deadline`, otherwise wait 100 ms and re-check.  Returns
the virtual time at which the loop exits. -/
def pollLoop (inFlight : Nat → Int) (deadline : Nat) (now : Nat) : Nat :=
  if inFlight now ≤ 0 then now
  else if now > deadline then now
  else pollLoop inFlight deadline (now + 100)
termination_by deadline + 1 - now
decreasing_by omega

/-- Embeds `Lifecycle.Shutdown` for a context that is never cancelled:
sleep `shutdownDelay` (a no-op when zero, exactly as in the source),
set the deadline to `now + shutdownTimeout`, then poll.  Returns the
virtual time at which `Shutdown` returns.  `inFlight` gives the value
the in-flight counter would be observed to hold at each instant; it is
unconstrained, covering counters that never reach zero. -/
def shutdownReturnTime (inFlight : Nat → Int)
    (shutdownDelay shutdownTimeout start : Nat) : Nat :=
  pollLoop inFlight (start + shutdownDelay + shutdownTimeout) (start + shutdownDelay)

/-- Modelled from the spec: the ready-override accessors
(`SetReadyOverride`, `ReadyOverride`) and the override-aware `IsReady`
body are not present under `src/` — only their callers (the admin
`Ready` handler and `admin/reset`) and the tests that exercise them
are.  The spec says: `IsReady()` returns
`readyOverride.value_or(state == Ready)`, with `readyOverride` an
`optional<bool>` forced by `/admin/ready`. -/
structure LifecycleR where
  state : LifState
  readyOverride : Option Bool
deriving DecidableEq

/-- Modelled from the spec: `IsReady` returns the override when set,
else whether the state is `Ready`. -/
def LifecycleR.isReady (lc : LifecycleR) : Bool :=
  match lc.readyOverride with
  | some b => b
  | none => lc.state = .ready

/-- Result of the admin `Ready` handler. -/
inductive AdminReadyResult where
  | ok (lc : LifecycleR)
  | invalidParameter
deriving DecidableEq

/-- Embeds the `state` switch of `AdminHandlers.Ready`
(`internal/handlers/admin.go`): `true`/`false` force the override, an
empty value toggles (clear the override if one is active, else force
not-ready), anything else is an invalid parameter. -/
def adminReady (lc : LifecycleR) (stateParam : String) : AdminReadyResult :=
  if stateParam = "true" then .ok { lc with readyOverride := some true }
  else if stateParam = "false" then .ok { lc with readyOverride := some false }
  else if stateParam = "" then
    match lc.readyOverride with
    | some _ => .ok { lc with readyOverride := none }
    | none => .ok { lc with readyOverride := some false }
  else .invalidParameter

/-! ## Priority work queue (`internal/queue/queue.go`)

Three per-priority FIFO sequences guarded by one mutex; operations are
linearized, so a history is a list of operations applied in order.
-/

/-- Embeds `queue.Item`.  `processingTime` is nanoseconds and
`enqueuedAt` a timestamp; neither affects queue placement. -/
structure Item where
  id : String
  priority : String
  processingTime : Int
  enqueuedAt : Int
deriving DecidableEq

/-- Embeds `queue.Queue`: the three sequences, the capacity, the
`enqueuedTotal` counter and the `paused` flag.  (`processedTotal` and
`failedTotal` are written only by the worker pool.) -/
structure Queue where
  maxDepth : Int
  high : List Item
  normal : List Item
  low : List Item
  enqueuedTotal : Int
  paused : Bool
deriving DecidableEq

/-- Embeds `queue.New`. -/
def Queue.new (maxDepth : Int) : Queue :=
  { maxDepth := maxDepth, high := [], normal := [], low := []
    enqueuedTotal := 0, paused := false }

/-- Embeds `Queue.depth`: the sum of the three lengths. -/
def Queue.depth (q : Queue) : Int :=
  (q.high.length : Int) + q.normal.length + q.low.length

/-- Result of `Queue.Enqueue`: the `ErrQueueFull` error, or the updated
queue. -/
inductive EnqueueResult where
  | queueFull
  | enqueued (q : Queue)
deriving DecidableEq

/-- Embeds `Queue.Enqueue`: reject when `depth >= maxDepth`; otherwise
append at the tail of the item's priority sequence — `high` and `low`
by name, every other priority normalized to `normal` — and increment
`enqueuedTotal`. -/
def Queue.enqueue (q : Queue) (item : Item) : EnqueueResult :=
  if q.depth ≥ q.maxDepth then .queueFull
  else if item.priority = "high" then
    .enqueued { q with high := q.high ++ [item], enqueuedTotal := q.enqueuedTotal + 1 }
  else if item.priority = "low" then
    .enqueued { q with low := q.low ++ [item], enqueuedTotal := q.enqueuedTotal + 1 }
  else
    let item2 : Item := { item with priority := "normal" }
    .enqueued { q with normal := q.normal ++ [item2], enqueuedTotal := q.enqueuedTotal + 1 }

/-- Embeds `Queue.Dequeue`: `none` when paused; otherwise the head of
the highest non-empty priority sequence, or `none` when all three are
empty. -/
def Queue.dequeue (q : Queue) : Option (Item × Queue) :=
  if q.paused then none
  else
    match q.high with
    | i :: rest => some (i, { q with high := rest })
    | [] =>
      match q.normal with
      | i :: rest => some (i, { q with normal := rest })
      | [] =>
        match q.low with
        | i :: rest => some (i, { q with low := rest })
        | [] => none

/-- The priority level an enqueued item lands in. -/
def levelOf (item : Item) : String :=
  if item.priority = "high" then "high"
  else if item.priority = "low" then "low"
  else "normal"

/-- The item as stored: unknown priorities are normalized to
`"normal"` by `Enqueue`. -/
def normItem (item : Item) : Item :=
  if item.priority = "high" then item
  else if item.priority = "low" then item
  else { item with priority := "normal" }

/-- The sequence a queue holds at a named level. -/
def Queue.level (q : Queue) (l : String) : List Item :=
  if l = "high" then q.high else if l = "low" then q.low else q.normal

/-- A queue operation in a linearized history. -/
inductive QOp where
  | enq (item : Item)
  | deq
  | pause
  | resume
  | clear
deriving DecidableEq

/-- Runs a history of queue operations.  A full enqueue and an empty
(or paused) dequeue leave the queue unchanged; `pause`, `resume` and
`clear` embed the corresponding methods. -/
def runQueue (q : Queue) : List QOp → Queue
  | [] => q
  | .enq item :: ops =>
    match q.enqueue item with
    | .enqueued q2 => runQueue q2 ops
    | .queueFull => runQueue q ops
  | .deq :: ops =>
    match q.dequeue with
    | some (_, q2) => runQueue q2 ops
    | none => runQueue q ops
  | .pause :: ops => runQueue { q with paused := true } ops
  | .resume :: ops => runQueue { q with paused := false } ops
  | .clear :: ops => runQueue { q with high := [], normal := [], low := [] } ops

/-- Runs a history while recording, per priority level, every item
successfully enqueued at that level (normalized, in enqueue order).
The recorded history is what FIFO order is stated against. -/
def runQueueHist (q : Queue) (hist : String → List Item) :
    List QOp → Queue × (String → List Item)
  | [] => (q, hist)
  | .enq item :: ops =>
    match q.enqueue item with
    | .enqueued q2 =>
      runQueueHist q2
        (fun l => if l = levelOf item then hist l ++ [normItem item] else hist l) ops
    | .queueFull => runQueueHist q hist ops
  | .deq :: ops =>
    match q.dequeue with
    | some (_, q2) => runQueueHist q2 hist ops
    | none => runQueueHist q hist ops
  | .pause :: ops => runQueueHist { q with paused := true } hist ops
  | .resume :: ops => runQueueHist { q with paused := false } hist ops
  | .clear :: ops => runQueueHist { q with high := [], normal := [], low := [] } hist ops

/-- True when a history consists of enqueues and dequeues only. -/
def enqDeqOnly : List QOp → Bool
  | [] => true
  | .enq _ :: ops => enqDeqOnly ops
  | .deq :: ops => enqDeqOnly ops
  | _ => false

/-! ## Fault injection controller (`internal/fault/injector.go`)

The rule map is guarded by a reader/writer lock; mutations are
linearized, so the embedding is functional.  Float64 rates are
modelled as rationals (the comparisons `rate <= 0` and `rate >= 1` are
exact), `rand.Float64()` draws are oracle arguments, and `time.Now()`
at each read site is an explicit `now` argument; a zero `ExpiresAt`
(never expires) is `none`.
-/

/-- Embeds `fault.ErrorConfig`. -/
structure ErrorConfig where
  rate : ℚ
  codes : List Int
  expiresAt : Option Int
deriving DecidableEq

/-- Embeds `ErrorConfig.IsExpired`: a zero expiry never expires,
otherwise expired when `now` is after it. -/
def ErrorConfig.isExpired (c : ErrorConfig) (now : Int) : Bool :=
  match c.expiresAt with
  | none => false
  | some t => now > t

/-- Embeds `ErrorConfig.ShouldInject` with the `rand.Float64()` draw
`r` passed as an oracle: `rate <= 0` never injects, `rate >= 1` always
does, otherwise inject when `r < rate`. -/
def ErrorConfig.shouldInject (c : ErrorConfig) (r : ℚ) : Bool :=
  if c.rate ≤ 0 then false
  else if c.rate ≥ 1 then true
  else r < c.rate

/-- Embeds `ErrorConfig.SelectCode` with the `rand.IntN` draw reduced
modulo the list length: `500` for an empty list, the single element of
a singleton, otherwise a uniformly drawn element. -/
def ErrorConfig.selectCode (c : ErrorConfig) (idx : Nat) : Int :=
  match c.codes with
  | [] => 500
  | [x] => x
  | _ => c.codes.getD (idx % c.codes.length) 500

/-- Embeds `fault.Injector`: the per-endpoint rule map and the
optional global rule. -/
structure Injector where
  configs : String → Option ErrorConfig
  globalConfig : Option ErrorConfig

/-- Embeds `fault.NewInjector`: created empty. -/
def NewInjector : Injector :=
  { configs := fun _ => none, globalConfig := none }

/-- Embeds `Injector.SetEndpointConfig`: a nil config or one with
`rate <= 0` deletes the endpoint's entry; otherwise the entry is
replaced. -/
def Injector.setEndpointConfig (i : Injector) (endpoint : String)
    (cfg : Option ErrorConfig) : Injector :=
  match cfg with
  | none => { i with configs := fun e => if e = endpoint then none else i.configs e }
  | some c =>
    if c.rate ≤ 0 then
      { i with configs := fun e => if e = endpoint then none else i.configs e }
    else
      { i with configs := fun e => if e = endpoint then some c else i.configs e }

/-- Embeds `Injector.SetGlobalConfig`: the global rule is stored
unconditionally, whatever its rate. -/
def Injector.setGlobalConfig (i : Injector) (cfg : Option ErrorConfig) : Injector :=
  { i with globalConfig := cfg }

/-- The global rule when present and not expired (the fallback used by
`GetConfig`, and the body of `GetGlobalConfig`). -/
def Injector.globalIfLive (i : Injector) (now : Int) : Option ErrorConfig :=
  match i.globalConfig with
  | some g => if g.isExpired now then none else some g
  | none => none

/-- Embeds `Injector.GetConfig`: the endpoint rule when present and
not expired, else the global rule when present and not expired, else
nothing. -/
def Injector.getConfig (i : Injector) (endpoint : String) (now : Int) :
    Option ErrorConfig :=
  match i.configs endpoint with
  | some cfg => if cfg.isExpired now then i.globalIfLive now else some cfg
  | none => i.globalIfLive now

/-- Embeds `Injector.GetGlobalConfig`. -/
def Injector.getGlobalConfig (i : Injector) (now : Int) : Option ErrorConfig :=
  i.globalIfLive now

/-- Embeds `Injector.GetEndpointConfigs`: a copy of the endpoint map
with expired entries dropped, read at one endpoint. -/
def Injector.getEndpointConfigs (i : Injector) (now : Int) (endpoint : String) :
    Option ErrorConfig :=
  match i.configs endpoint with
  | some c => if c.isExpired now then none else some c
  | none => none

/-- Embeds `Injector.ShouldInjectError`: `0` when no rule applies or
the dice do not fire, else a code drawn from the rule. -/
def Injector.shouldInjectError (i : Injector) (endpoint : String) (now : Int)
    (r : ℚ) (idx : Nat) : Int :=
  match i.getConfig endpoint now with
  | none => 0
  | some cfg => if cfg.shouldInject r then cfg.selectCode idx else 0

/-- Embeds `Injector.Reset`: every rule removed. -/
def Injector.reset (_i : Injector) : Injector :=
  { configs := fun _ => none, globalConfig := none }

/-! ## Size parsing (`internal/config/config.go`: `ParseSize`)

Faithful embedding of `ParseSize` and its helpers, over the character
list of the string (the inputs of interest are ASCII, over which
`strings.ToUpper` and `strings.TrimSpace` act character-wise).
`strconv.ParseInt` with base 10 and bit size 64 is `parseInt64`.
-/

/-- The whitespace characters that `strings.TrimSpace` removes (the
ASCII cases of `unicode.IsSpace`). -/
def goIsSpace (c : Char) : Bool :=
  c = ' ' ∨ c = '\t' ∨ c = '\n' ∨ c = '\r' ∨ c.toNat = 11 ∨ c.toNat = 12

/-- `strings.TrimSpace` on characters: drop whitespace at both ends. -/
def trimChars (cs : List Char) : List Char :=
  ((cs.dropWhile goIsSpace).reverse.dropWhile goIsSpace).reverse

/-- `strings.ToUpper` on one ASCII character. -/
def upperChar (c : Char) : Char :=
  if 'a' ≤ c ∧ c ≤ 'z' then Char.ofNat (c.toNat - 32) else c

/-- Decimal digits to a natural number. -/
def digitsToNat (ds : List Char) : Nat :=
  ds.foldl (fun acc ch => acc * 10 + (ch.toNat - 48)) 0

/-- Embeds `strconv.ParseInt(s, 10, 64)`: an optional sign, one or
more decimal digits, and a value within the int64 range. -/
def parseInt64 (cs : List Char) : Option Int :=
  let signed : Option Int :=
    match cs with
    | '-' :: ds =>
      if ds ≠ [] ∧ ds.all Char.isDigit then some (-(digitsToNat ds : Int)) else none
    | '+' :: ds =>
      if ds ≠ [] ∧ ds.all Char.isDigit then some ((digitsToNat ds : Int)) else none
    | ds =>
      if ds ≠ [] ∧ ds.all Char.isDigit then some ((digitsToNat ds : Int)) else none
  match signed with
  | none => none
  | some v => if v < -(2 ^ 63) ∨ v > 2 ^ 63 - 1 then none else some v

/-- math.MaxInt64. -/
def maxInt64 : Int := 2 ^ 63 - 1

/-- Embeds the `sizeSuffixes` table: binary multipliers, checked in
this order. -/
def sizeSuffixes : List (String × Int) :=
  [("TB", 2 ^ 40), ("GB", 2 ^ 30), ("MB", 2 ^ 20), ("KB", 2 ^ 10), ("B", 1)]

/-- Result of `ParseSize`: the parsed byte count or an error message. -/
inductive SizeResult where
  | err (msg : String)
  | ok (n : Int)
deriving DecidableEq

/-- The suffix loop of `ParseSize`: on the first matching suffix, trim
it off, trim spaces, parse the number, reject negatives and overflow,
and multiply. -/
def applySizeSuffix (cs : List Char) : List (String × Int) → Option SizeResult
  | [] => none
  | (suf, mult) :: rest =>
    if suf.data.isSuffixOf cs then
      some (match parseInt64 (trimChars (cs.take (cs.length - suf.length))) with
        | none => .err "invalid size number"
        | some n =>
          if n < 0 then .err "size cannot be negative"
          else if n > maxInt64 / mult then .err "size overflow: value too large"
          else .ok (n * mult))
    else applySizeSuffix cs rest

/-- Embeds `config.ParseSize`: reject the empty string, trim and
uppercase, try the suffix table, else parse the whole string as a
byte count. -/
def ParseSize (s : String) : SizeResult :=
  if s.data = [] then .err "empty size string"
  else
    let t := (trimChars s.data).map upperChar
    match applySizeSuffix t sizeSuffixes with
    | some r => r
    | none =>
      match parseInt64 t with
      | none => .err "invalid size"
      | some n => if n < 0 then .err "size cannot be negative" else .ok n

/-! ## Workload handler pipelines (`internal/handlers`)

The deterministic part of each workload handler: parameter
validation, the safety cap, and admission via the tracker, in the
exact order of the source.  The workload execution itself (CPU burn,
memory fill, file I/O) is timing- and scheduler-dependent and sits
outside the pure embedding; the response fields it fills (iterations,
elapsed time, bytes moved) are omitted, while the deterministic echo
fields (`requested_*`, `limit_applied`, option names) are kept.
Duration parameters arrive as `Option Int` (nanoseconds): `none`
models a `time.ParseDuration` failure, `some` the parsed value or the
handler's default.
-/

/-- Outcome of a handler run, by response class.  `panicked` marks the
nil-counter dereference inside `Tracker.Acquire`, reachable only for a
class outside the tracker's map. -/
inductive HandlerResult (α : Type) where
  | invalidParameter
  | tooManyRequests
  | ok (resp : α)
  | panicked
deriving DecidableEq

/-- Embeds the `parseSize` helper of the handlers package: the default
when the query parameter is absent, else `config.ParseSize`. -/
def parseSizeParam (v : String) (defaultVal : Int) : SizeResult :=
  if v = "" then .ok defaultVal else ParseSize v

/-- Embeds `strconv.ParseBool`. -/
def parseBoolGo (s : String) : Option Bool :=
  if s = "1" ∨ s = "t" ∨ s = "T" ∨ s = "TRUE" ∨ s = "true" ∨ s = "True" then some true
  else if s = "0" ∨ s = "f" ∨ s = "F" ∨ s = "FALSE" ∨ s = "false" ∨ s = "False" then
    some false
  else none

/-- The deterministic fields of `CPUResponse`. -/
structure CPUResponse where
  requestedDuration : Int
  cores : Int
  intensity : String
  limitApplied : Bool
deriving DecidableEq

/-- Embeds `CPUHandlers.CPU`: validate `duration` (parse failure or a
negative value), validate `cores`, default and validate `intensity`,
apply the `MaxCPUDuration` cap, admit under class `cpu`, respond with
the capped duration echoed. -/
def cpuEndpoint (t : Tracker) (maxDuration : Int)
    (durationParam coresParam : Option Int) (intensityRaw : String) :
    HandlerResult CPUResponse :=
  match durationParam with
  | none => .invalidParameter
  | some duration =>
    if duration < 0 then .invalidParameter
    else
      match coresParam with
      | none => .invalidParameter
      | some cores =>
        if cores < 1 then .invalidParameter
        else
          let intensity := if intensityRaw = "" then "medium" else intensityRaw
          if intensity ≠ "low" ∧ intensity ≠ "medium" ∧ intensity ≠ "high" then
            .invalidParameter
          else
            let capped := maxDuration > 0 ∧ duration > maxDuration
            let duration2 := if capped then maxDuration else duration
            match t.acquire "cpu" with
            | .nilPanic => .panicked
            | .tooManyOps => .tooManyRequests
            | .acquired _ => .ok ⟨duration2, cores, intensity, decide capped⟩

/-- The deterministic fields of `MemoryResponse`. -/
structure MemoryResponse where
  requestedSize : Int
  duration : Int
  pattern : String
  limitApplied : Bool
deriving DecidableEq

/-- Embeds `MemoryHandlers.Memory`: validate `size` (via
`config.ParseSize`) and `duration`, default and validate `pattern`,
apply the `MaxMemorySize` cap, admit under class `memory`. -/
def memoryEndpoint (t : Tracker) (maxSize : Int)
    (sizeRaw : String) (durationParam : Option Int) (patternRaw : String) :
    HandlerResult MemoryResponse :=
  match parseSizeParam sizeRaw (10 * 2 ^ 20) with
  | .err _ => .invalidParameter
  | .ok size =>
    if size < 0 then .invalidParameter
    else
      match durationParam with
      | none => .invalidParameter
      | some duration =>
        if duration < 0 then .invalidParameter
        else
          let pattern := if patternRaw = "" then "random" else patternRaw
          if pattern ≠ "zero" ∧ pattern ≠ "random" ∧ pattern ≠ "sequential" then
            .invalidParameter
          else
            let capped := maxSize > 0 ∧ size > maxSize
            let size2 := if capped then maxSize else size
            match t.acquire "memory" with
            | .nilPanic => .panicked
            | .tooManyOps => .tooManyRequests
            | .acquired _ => .ok ⟨size2, duration, pattern, decide capped⟩

/-- The deterministic fields of `IOResponse`. -/
structure IOResponse where
  requestedSize : Int
  operation : String
  sync : Bool
  limitApplied : Bool
deriving DecidableEq

/-- Embeds `IOHandlers.IO`: validate `size` (via `config.ParseSize`),
default and validate `operation`, parse `sync`, apply the `MaxIOSize`
cap, admit under class `io`, respond with the capped size echoed as
`requested_size`. -/
def ioEndpoint (t : Tracker) (maxSize : Int)
    (sizeRaw operationRaw syncRaw : String) : HandlerResult IOResponse :=
  match parseSizeParam sizeRaw (10 * 2 ^ 20) with
  | .err _ => .invalidParameter
  | .ok size =>
    if size < 0 then .invalidParameter
    else
      let operation := if operationRaw = "" then "write" else operationRaw
      if operation ≠ "write" ∧ operation ≠ "read" ∧ operation ≠ "mixed" then
        .invalidParameter
      else
        match (if syncRaw = "" then some false else parseBoolGo syncRaw) with
        | none => .invalidParameter
        | some doSync =>
          let capped := maxSize > 0 ∧ size > maxSize
          let size2 := if capped then maxSize else size
          match t.acquire "io" with
          | .nilPanic => .panicked
          | .tooManyOps => .tooManyRequests
          | .acquired _ => .ok ⟨size2, operation, doSync, decide capped⟩

/-- Embeds `handlers.workProfile`. -/
structure WorkProfile where
  cpuDuration : Int
  cpuCores : Int
  intensity : String
  memorySize : Int
  latency : Int
deriving DecidableEq

/-- Embeds the `workProfiles` table (durations in nanoseconds). -/
def workProfiles (name : String) : Option WorkProfile :=
  if name = "web" then some ⟨20 * 10 ^ 6, 1, "medium", 5 * 2 ^ 20, 50 * 10 ^ 6⟩
  else if name = "api" then some ⟨50 * 10 ^ 6, 1, "medium", 2 * 2 ^ 20, 20 * 10 ^ 6⟩
  else if name = "worker" then some ⟨200 * 10 ^ 6, 2, "high", 50 * 2 ^ 20, 100 * 10 ^ 6⟩
  else if name = "heavy" then some ⟨500 * 10 ^ 6, 4, "high", 100 * 2 ^ 20, 10 * 10 ^ 6⟩
  else none

/-- Embeds `applyVariance`/`applyVarianceInt64`: the identity when
`variance` is zero; otherwise the value is scaled by a random float64
multiplier in `[1 - v, 1 + v]`, and the scaled result is supplied by
the oracle argument `o`. -/
def applyVariance (d : Int) (variance : ℚ) (o : Int) : Int :=
  if variance = 0 then d else o

/-- The deterministic fields of `WorkResponse`. -/
structure WorkResponse where
  profile : String
  cpuDuration : Int
  memorySize : Int
  limitsApplied : Bool
deriving DecidableEq

/-- Embeds `WorkHandlers.Work`: default and validate `profile`,
validate `variance` (the float parse modelled by the `varianceParam`
oracle, `none` on parse failure), apply variance to the cpu duration
and memory size (random scalings supplied by the oracles `oCpu` and
`oMem`), apply both safety caps, admit under class `work`. -/
def workEndpoint (t : Tracker) (maxCPUDur maxMemorySize : Int)
    (profileRaw : String) (varianceRaw : String) (varianceParam : Option ℚ)
    (oCpu oMem : Int) : HandlerResult WorkResponse :=
  let profileName := if profileRaw = "" then "web" else profileRaw
  match workProfiles profileName with
  | none => .invalidParameter
  | some profile =>
    match (if varianceRaw = "" then some 0 else varianceParam) with
    | none => .invalidParameter
    | some variance =>
      if variance < 0 ∨ variance > 1 then .invalidParameter
      else
        let cpuDuration := applyVariance profile.cpuDuration variance oCpu
        let memorySize := applyVariance profile.memorySize variance oMem
        let cpuCapped := maxCPUDur > 0 ∧ cpuDuration > maxCPUDur
        let cpuDuration2 := if cpuCapped then maxCPUDur else cpuDuration
        let memCapped := maxMemorySize > 0 ∧ memorySize > maxMemorySize
        let memorySize2 := if memCapped then maxMemorySize else memorySize
        match t.acquire "work" with
        | .nilPanic => .panicked
        | .tooManyOps => .tooManyRequests
        | .acquired _ =>
          .ok ⟨profileName, cpuDuration2, memorySize2, decide (cpuCapped ∨ memCapped)⟩

/-! ## Theorems -/

/-- Exit value of the shutdown polling loop: at most one polling
interval past the deadline (and never before the entry time). -/
theorem pollLoop_le (inFlight : Nat → Int) (deadline now : Nat) :
    pollLoop inFlight deadline now ≤ max now (deadline + 100) := by
  rw [pollLoop]
  by_cases h1 : inFlight now ≤ 0
  · simp only [h1, if_true]
    exact Nat.le_max_left _ _
  · simp only [h1, if_false]
    by_cases h2 : now > deadline
    · simp only [h2, if_true]
      exact Nat.le_max_left _ _
    · simp only [h2, if_false]
      have ih := pollLoop_le inFlight deadline (now + 100)
      have hmax : max (now + 100) (deadline + 100) ≤ max now (deadline + 100) := by
        omega
      exact le_trans ih hmax
termination_by deadline + 1 - now
decreasing_by omega

/-- C7: for a never-cancelled context and any behaviour of the
in-flight counter — including one that never reaches zero —
`Lifecycle.Shutdown` returns (the embedding is a total function), and
the virtual time elapsed between the call and the return is at most
`shutdownDelay + shutdownTimeout + ε` with `ε` bounded by one 100 ms
polling interval. -/
theorem c7_shutdown_returns_within_bound (inFlight : Nat → Int)
    (shutdownDelay shutdownTimeout start : Nat) :
    shutdownReturnTime inFlight shutdownDelay shutdownTimeout start ≤
      start + (shutdownDelay + shutdownTimeout + 100) := by
  have h := pollLoop_le inFlight (start + shutdownDelay + shutdownTimeout)
    (start + shutdownDelay)
  unfold shutdownReturnTime
  omega

/-- C9: `ParseSize` rejects the Kubernetes-style suffixes `Ki`, `Mi`,
`Gi`, `Ti` — `"1Mi"` is an error, not `2 ^ 20` — while the binary
suffixes `B`/`KB`/`MB`/`GB`/`TB` do parse case-insensitively.  The
repository's own test table (`TestParseSizeKubernetesSuffixes`)
requires `ParseSize "1Mi" = 1048576`, so the code contradicts its own
tests at this input. -/
theorem c9_parseSize_rejects_kubernetes_suffixes :
    ParseSize "1Mi" = .err "invalid size" ∧
    ParseSize "1Ki" = .err "invalid size" ∧
    ParseSize "1Gi" = .err "invalid size" ∧
    ParseSize "1Ti" = .err "invalid size" ∧
    ParseSize "1MB" = .ok (2 ^ 20) ∧
    ParseSize "1kb" = .ok 1024 ∧
    ParseSize "1GB" = .ok (2 ^ 30) ∧
    ParseSize "100" = .ok 100 := by
  decide

/-- C1: `becomeReady` stores `StateReady` unconditionally, so when the
startup timer fires after `Shutdown` has already stored
`StateShuttingDown` (reachable whenever `Shutdown` is called before a
positive startup duration elapses), the state moves back from
`ShuttingDown` to `Ready` — a reverse transition the specification
rules out. -/
theorem c1_timer_after_shutdown_reenters_ready :
    lifRun .starting [.shutdown] = .shuttingDown ∧
    lifRun .starting [.shutdown, .timerFire] = .ready := by
  decide

/-- C2: for every lifecycle state and every admin ready-override value
(set to true, set to false, or absent), `IsReady` returns the override
when one is set and otherwise whether the state equals `Ready`; that
is, `IsReady() = readyOverride.value_or(state == Ready)`. -/
theorem c2_isReady_override_semantics (st : LifState) :
    LifecycleR.isReady ⟨st, some true⟩ = true ∧
    LifecycleR.isReady ⟨st, some false⟩ = false ∧
    LifecycleR.isReady ⟨st, none⟩ = decide (st = .ready) ∧
    (∀ ov : Option Bool,
      LifecycleR.isReady ⟨st, ov⟩ = ov.getD (decide (st = .ready))) := by
  refine ⟨rfl, rfl, rfl, fun ov => ?_⟩
  cases ov <;> rfl

/-- C10: `Tracker.Acquire` on any operation class outside the five
installed by `NewTracker` hits a `nil` counter and panics, while
`Count` returns `0` for the same class; for each of the five known
classes the nil branch is unreachable and `Acquire` returns a
non-panicking result. -/
theorem c10_acquire_unknown_class_panics (k : Int) (op : String)
    (hop : op ∉ knownOps) :
    (NewTracker k).acquire op = .nilPanic ∧
    (NewTracker k).count op = 0 ∧
    (∀ c ∈ knownOps, (NewTracker k).acquire c ≠ .nilPanic) := by
  refine ⟨?_, ?_, ?_⟩
  · simp [Tracker.acquire, NewTracker, hop]
  · simp [Tracker.count, NewTracker, hop]
  · intro c hc
    simp only [Tracker.acquire, NewTracker, hc, if_true]
    split <;> simp

/-- Witness for C10 at the unknown class `"bogus"` and cap `7`. -/
theorem c10_acquire_unknown_class_panics_witness :
    "bogus" ∉ knownOps ∧
    ((NewTracker 7).acquire "bogus" = .nilPanic ∧
     (NewTracker 7).count "bogus" = 0 ∧
     (∀ c ∈ knownOps, (NewTracker 7).acquire c ≠ .nilPanic)) :=
  ⟨by decide, c10_acquire_unknown_class_panics 7 "bogus" (by decide)⟩

/-- C6 counterexample: storing a global rule with `rate = 0` does not
remove it — `SetGlobalConfig` assigns unconditionally — so afterwards
the snapshot read `GetGlobalConfig` still reports the rule and
`GetConfig` still returns it for any endpoint, refuting the claim that
for both mutators a `rate ≤ 0` rule is removed and lookups and
snapshots show nothing. -/
theorem c6_counterexample_global_rate_zero_kept :
    (NewInjector.setGlobalConfig (some ⟨0, [500], none⟩)).getGlobalConfig 0 =
      some ⟨0, [500], none⟩ ∧
    (NewInjector.setGlobalConfig (some ⟨0, [500], none⟩)).getConfig "/cpu" 0 =
      some ⟨0, [500], none⟩ := by
  exact ⟨rfl, rfl⟩

/-- C6 amended: `SetEndpointConfig` with a nil rule or one whose
`rate ≤ 0` removes the endpoint's rule, so the endpoint map and the
snapshot read report nothing for it; `SetGlobalConfig` instead stores
the given rule unconditionally (only a nil value clears it), and a
rule with `rate ≤ 0` — wherever it ends up applying — never injects an
error. -/
theorem c6_amended_rate_zero_semantics (inj : Injector) (ep : String)
    (c : ErrorConfig) (now : Int) (r : ℚ) (idx : Nat) (hr : c.rate ≤ 0) :
    (inj.setEndpointConfig ep (some c)).configs ep = none ∧
    (inj.setEndpointConfig ep none).configs ep = none ∧
    (inj.setEndpointConfig ep (some c)).getEndpointConfigs now ep = none ∧
    (∀ g, (inj.setGlobalConfig g).globalConfig = g) ∧
    (∀ c2, inj.getConfig ep now = some c2 → c2.rate ≤ 0 →
      inj.shouldInjectError ep now r idx = 0) := by
  refine ⟨?_, ?_, ?_, fun g => rfl, ?_⟩
  · simp [Injector.setEndpointConfig, hr]
  · simp [Injector.setEndpointConfig]
  · simp [Injector.setEndpointConfig, Injector.getEndpointConfigs, hr]
  · intro c2 hget h2
    simp [Injector.shouldInjectError, hget, ErrorConfig.shouldInject, h2]

/-- Witness for C6 amended at the empty injector, endpoint `"/cpu"`,
and the rate-zero rule `(0, [500], never-expires)`. -/
theorem c6_amended_rate_zero_semantics_witness :
    ((⟨0, [500], none⟩ : ErrorConfig).rate ≤ 0) ∧
    ((NewInjector.setEndpointConfig "/cpu" (some ⟨0, [500], none⟩)).configs "/cpu" =
        none ∧
      (NewInjector.setEndpointConfig "/cpu" none).configs "/cpu" = none ∧
      (NewInjector.setEndpointConfig "/cpu"
          (some ⟨0, [500], none⟩)).getEndpointConfigs 0 "/cpu" = none ∧
      (∀ g, (NewInjector.setGlobalConfig g).globalConfig = g) ∧
      (∀ c2, NewInjector.getConfig "/cpu" 0 = some c2 → c2.rate ≤ 0 →
        NewInjector.shouldInjectError "/cpu" 0 (1 / 2) 0 = 0)) :=
  ⟨le_refl 0,
    c6_amended_rate_zero_semantics NewInjector "/cpu" ⟨0, [500], none⟩ 0 (1 / 2) 0
      (le_refl 0)⟩

/-- Updating a class's counter is visible at that class. -/
theorem setCount_self (t : Tracker) (op : String) (n : Int) :
    (t.setCount op n).counts op = some n := by
  simp [Tracker.setCount]

/-- Updating a class's counter leaves other classes untouched. -/
theorem setCount_other (t : Tracker) (op o2 : String) (n : Int) (h : o2 ≠ op) :
    (t.setCount op n).counts o2 = t.counts o2 := by
  simp [Tracker.setCount, h]

/-- `Acquire` at a class whose counter holds `cur`, with the cap
enabled and reached, fails. -/
theorem acquire_at_cap (t : Tracker) (c : String) (cur : Int)
    (hc : t.counts c = some cur) (h : t.maxOps > 0 ∧ cur ≥ t.maxOps) :
    t.acquire c = .tooManyOps := by
  simp [Tracker.acquire, hc, h]

/-- `Acquire` at a class whose counter holds `cur`, with the cap not
reached (or disabled), increments the counter. -/
theorem acquire_below_cap (t : Tracker) (c : String) (cur : Int)
    (hc : t.counts c = some cur) (h : ¬(t.maxOps > 0 ∧ cur ≥ t.maxOps)) :
    t.acquire c = .acquired (t.setCount c (cur + 1)) := by
  simp [Tracker.acquire, hc, h]

/-- Invariant of a well-formed single-class history run with a
positive cap `k`: the class's counter always equals the number of
outstanding tokens, never exceeds `k`, and no other class's counter
moves. -/
theorem runTracker_inv (c : String) (k : Int) (hk : 0 < k)
    (tr : List OpEvent) :
    ∀ (t : Tracker) (p : Nat),
      t.maxOps = k → t.counts c = some (p : Int) → (p : Int) ≤ k →
      wfTrace c t p tr = true →
      (runTracker c t tr).maxOps = k ∧
      (runTracker c t tr).counts c = some ((pendingAfter c t p tr : Nat) : Int) ∧
      ((pendingAfter c t p tr : Nat) : Int) ≤ k ∧
      (∀ c2, c2 ≠ c → (runTracker c t tr).counts c2 = t.counts c2) := by
  induction tr with
  | nil =>
    intro t p hmax hc hpk _
    exact ⟨hmax, hc, hpk, fun c2 _ => rfl⟩
  | cons e es ih =>
    intro t p hmax hc hpk hwf
    cases e with
    | acq =>
      by_cases hfull : t.maxOps > 0 ∧ (p : Int) ≥ t.maxOps
      · have hacq : t.acquire c = .tooManyOps := acquire_at_cap t c _ hc hfull
        simp only [runTracker, pendingAfter, wfTrace, hacq] at hwf ⊢
        exact ih t p hmax hc hpk hwf
      · have hacq : t.acquire c = .acquired (t.setCount c ((p : Int) + 1)) :=
          acquire_below_cap t c _ hc hfull
        simp only [runTracker, pendingAfter, wfTrace, hacq] at hwf ⊢
        have hc2 : (t.setCount c ((p : Int) + 1)).counts c = some ((p + 1 : Nat) : Int) := by
          rw [setCount_self]
          norm_cast
        have hmax2 : (t.setCount c ((p : Int) + 1)).maxOps = k := hmax
        have hpk2 : ((p + 1 : Nat) : Int) ≤ k := by
          rw [hmax] at hfull
          push_cast
          omega
        obtain ⟨i1, i2, i3, i4⟩ := ih _ (p + 1) hmax2 hc2 hpk2 hwf
        refine ⟨i1, i2, i3, fun c2 hne => ?_⟩
        rw [i4 c2 hne, setCount_other t c c2 _ hne]
    | rel =>
      simp only [wfTrace, Bool.and_eq_true, decide_eq_true_eq] at hwf
      obtain ⟨hp, hwf2⟩ := hwf
      have hrel : t.release c = t.setCount c ((p : Int) - 1) := by
        simp [Tracker.release, hc]
      rw [hrel] at hwf2
      simp only [runTracker, pendingAfter, hrel]
      have hc2 : (t.setCount c ((p : Int) - 1)).counts c = some ((p - 1 : Nat) : Int) := by
        rw [setCount_self]
        congr 1
        omega
      have hpk2 : ((p - 1 : Nat) : Int) ≤ k := by omega
      have hmax2 : (t.setCount c ((p : Int) - 1)).maxOps = k := hmax
      obtain ⟨i1, i2, i3, i4⟩ :=
        ih (t.setCount c ((p : Int) - 1)) (p - 1) hmax2 hc2 hpk2 hwf2
      refine ⟨i1, i2, i3, fun c2 hne => ?_⟩
      rw [i4 c2 hne, setCount_other t c c2 _ hne]

/-- A prefix of a well-formed history is well formed. -/
theorem wfTrace_append (c : String) (pre : List OpEvent) :
    ∀ (post : List OpEvent) (t : Tracker) (p : Nat),
      wfTrace c t p (pre ++ post) = true → wfTrace c t p pre = true := by
  induction pre with
  | nil => intro post t p _; rfl
  | cons e es ih =>
    intro post t p h
    cases e with
    | acq =>
      cases hacq : t.acquire c with
      | acquired t2 =>
        simp only [List.cons_append, wfTrace, hacq] at h ⊢
        exact ih post t2 (p + 1) h
      | nilPanic =>
        simp only [List.cons_append, wfTrace, hacq] at h ⊢
        exact ih post t p h
      | tooManyOps =>
        simp only [List.cons_append, wfTrace, hacq] at h ⊢
        exact ih post t p h
    | rel =>
      simp only [List.cons_append, wfTrace, Bool.and_eq_true] at h ⊢
      exact ⟨h.1, ih post _ _ h.2⟩

/-- C3: for a class `c` among the five known ones and a cap `k > 0`,
along any well-formed history of `Acquire` calls interleaved with
invocations of the release tokens they returned: the class's counter
stays between `0` and `k` at every point, `Acquire` fails with
`ErrTooManyOps` exactly when the counter has reached `k`, after every
token has been invoked exactly once the counter is `0` again, and the
counters of all other classes are untouched. -/
theorem c3_admission_cap_invariant (k : Int) (c : String) (tr : List OpEvent)
    (hk : 0 < k) (hc : c ∈ knownOps)
    (hwf : wfTrace c (NewTracker k) 0 tr = true) :
    (∀ pre post, tr = pre ++ post →
      0 ≤ (runTracker c (NewTracker k) pre).count c ∧
      (runTracker c (NewTracker k) pre).count c ≤ k) ∧
    (∀ pre post, tr = pre ++ post →
      ((runTracker c (NewTracker k) pre).acquire c = .tooManyOps ↔
        (runTracker c (NewTracker k) pre).count c = k)) ∧
    (pendingAfter c (NewTracker k) 0 tr = 0 →
      (runTracker c (NewTracker k) tr).count c = 0) ∧
    (∀ c2, c2 ≠ c →
      (runTracker c (NewTracker k) tr).counts c2 = (NewTracker k).counts c2) := by
  have hinit : (NewTracker k).counts c = some ((0 : Nat) : Int) := by
    simp [NewTracker, hc]
  have hfor : ∀ pre post, tr = pre ++ post →
      (runTracker c (NewTracker k) pre).maxOps = k ∧
      (runTracker c (NewTracker k) pre).counts c =
        some ((pendingAfter c (NewTracker k) 0 pre : Nat) : Int) ∧
      ((pendingAfter c (NewTracker k) 0 pre : Nat) : Int) ≤ k ∧
      (∀ c2, c2 ≠ c →
        (runTracker c (NewTracker k) pre).counts c2 = (NewTracker k).counts c2) := by
    intro pre post hsplit
    have hwfpre : wfTrace c (NewTracker k) 0 pre = true := by
      apply wfTrace_append c pre post
      rw [← hsplit]
      exact hwf
    exact runTracker_inv c k hk pre (NewTracker k) 0 rfl hinit (by omega) hwfpre
  refine ⟨?_, ?_, ?_, ?_⟩
  · intro pre post hsplit
    obtain ⟨_, h2, h3, _⟩ := hfor pre post hsplit
    rw [Tracker.count, h2]
    constructor
    · simp
    · simpa using h3
  · intro pre post hsplit
    obtain ⟨h1, h2, h3, _⟩ := hfor pre post hsplit
    rw [Tracker.count, h2]
    simp only [Option.getD_some]
    constructor
    · intro hfail
      by_contra hne
      have hlt : ((pendingAfter c (NewTracker k) 0 pre : Nat) : Int) < k := by
        omega
      have := acquire_below_cap (runTracker c (NewTracker k) pre) c _ h2 (by
        rw [h1]
        omega)
      rw [this] at hfail
      exact absurd hfail (by simp)
    · intro heq
      exact acquire_at_cap (runTracker c (NewTracker k) pre) c _ h2 (by rw [h1]; omega)
  · intro hdone
    obtain ⟨_, h2, _, _⟩ := hfor tr [] (by simp)
    rw [Tracker.count, h2, hdone]
    simp
  · obtain ⟨_, _, _, h4⟩ := hfor tr [] (by simp)
    exact h4

/-- Witness for C3 at cap `2`, class `"cpu"`, and the history
acquire, acquire, acquire (which fails at the cap), release,
release. -/
theorem c3_admission_cap_invariant_witness :
    (0 : Int) < 2 ∧ "cpu" ∈ knownOps ∧
    wfTrace "cpu" (NewTracker 2) 0 [.acq, .acq, .acq, .rel, .rel] = true ∧
    ((∀ pre post, ([.acq, .acq, .acq, .rel, .rel] : List OpEvent) = pre ++ post →
        0 ≤ (runTracker "cpu" (NewTracker 2) pre).count "cpu" ∧
        (runTracker "cpu" (NewTracker 2) pre).count "cpu" ≤ 2) ∧
      (∀ pre post, ([.acq, .acq, .acq, .rel, .rel] : List OpEvent) = pre ++ post →
        ((runTracker "cpu" (NewTracker 2) pre).acquire "cpu" = .tooManyOps ↔
          (runTracker "cpu" (NewTracker 2) pre).count "cpu" = 2)) ∧
      (pendingAfter "cpu" (NewTracker 2) 0 [.acq, .acq, .acq, .rel, .rel] = 0 →
        (runTracker "cpu" (NewTracker 2) [.acq, .acq, .acq, .rel, .rel]).count "cpu" = 0) ∧
      (∀ c2, c2 ≠ "cpu" →
        (runTracker "cpu" (NewTracker 2) [.acq, .acq, .acq, .rel, .rel]).counts c2 =
          (NewTracker 2).counts c2)) :=
  ⟨by decide, by decide, by decide,
    c3_admission_cap_invariant 2 "cpu" [.acq, .acq, .acq, .rel, .rel]
      (by decide) (by decide) (by decide)⟩

/-- `Enqueue` returns `ErrQueueFull` exactly when the depth is at or
above the capacity. -/
theorem enqueue_full_iff (q : Queue) (item : Item) :
    q.enqueue item = .queueFull ↔ q.depth ≥ q.maxDepth := by
  unfold Queue.enqueue
  split_ifs with h h1 h2 <;> simp [h]

/-- A successful `Enqueue` keeps the capacity and the paused flag,
grows the depth by one and `enqueuedTotal` by one. -/
theorem enqueue_success (q : Queue) (item : Item) (h : ¬q.depth ≥ q.maxDepth) :
    ∃ q2, q.enqueue item = .enqueued q2 ∧ q2.maxDepth = q.maxDepth ∧
      q2.depth = q.depth + 1 ∧ q2.paused = q.paused ∧
      q2.enqueuedTotal = q.enqueuedTotal + 1 := by
  unfold Queue.enqueue
  rw [if_neg h]
  split_ifs with h1 h2
  · exact ⟨_, rfl, rfl, by simp [Queue.depth]; ring, rfl, rfl⟩
  · exact ⟨_, rfl, rfl, by simp [Queue.depth]; ring, rfl, rfl⟩
  · exact ⟨_, rfl, rfl, by simp [Queue.depth]; ring, rfl, rfl⟩

/-- A successful `Dequeue` keeps the capacity and the paused flag and
shrinks the depth by one. -/
theorem dequeue_some_shape (q : Queue) (i : Item) (q2 : Queue)
    (h : q.dequeue = some (i, q2)) :
    q2.maxDepth = q.maxDepth ∧ q2.depth = q.depth - 1 ∧ q2.paused = q.paused := by
  unfold Queue.dequeue at h
  by_cases hp : q.paused
  · simp [hp] at h
  · rw [if_neg hp] at h
    cases hh : q.high with
    | cons a l =>
      rw [hh] at h
      obtain ⟨rfl, rfl⟩ : a = i ∧ { q with high := l } = q2 := by
        simpa using h
      refine ⟨rfl, ?_, rfl⟩
      simp [Queue.depth, hh]
      ring
    | nil =>
      rw [hh] at h
      cases hn : q.normal with
      | cons a l =>
        rw [hn] at h
        obtain ⟨rfl, rfl⟩ : a = i ∧ { q with high := [], normal := l } = q2 := by
          simpa using h
        refine ⟨rfl, ?_, rfl⟩
        simp [Queue.depth, hn, hh]
        ring
      | nil =>
        rw [hn] at h
        cases hl : q.low with
        | cons a l =>
          rw [hl] at h
          obtain ⟨rfl, rfl⟩ : a = i ∧ { q with high := [], normal := [], low := l } = q2 := by
            simpa using h
          refine ⟨rfl, ?_, rfl⟩
          simp [Queue.depth, hl, hh, hn]
        | nil =>
          rw [hl] at h
          simp at h

/-- Any run from a queue within capacity stays within capacity. -/
theorem runQueue_preserves (d : Int) (hd : 0 < d) (ops : List QOp) :
    ∀ q : Queue, q.maxDepth = d → q.depth ≤ d →
      (runQueue q ops).maxDepth = d ∧ (runQueue q ops).depth ≤ d := by
  induction ops with
  | nil => intro q h1 h2; exact ⟨h1, h2⟩
  | cons op ops2 ih =>
    intro q h1 h2
    cases op with
    | enq item =>
      by_cases hfull : q.depth ≥ q.maxDepth
      · have he : q.enqueue item = .queueFull := (enqueue_full_iff q item).mpr hfull
        simp only [runQueue, he]
        exact ih q h1 h2
      · obtain ⟨q2, he, hm, hdep, _, _⟩ := enqueue_success q item hfull
        simp only [runQueue, he]
        exact ih q2 (hm.trans h1) (by rw [hdep]; rw [h1] at hfull; omega)
    | deq =>
      cases hdq : q.dequeue with
      | none =>
        simp only [runQueue, hdq]
        exact ih q h1 h2
      | some pr =>
        obtain ⟨i, q2⟩ := pr
        obtain ⟨hm, hdep, _⟩ := dequeue_some_shape q i q2 hdq
        simp only [runQueue, hdq]
        exact ih q2 (hm.trans h1) (by rw [hdep]; omega)
    | pause =>
      simp only [runQueue]
      exact ih { q with paused := true } h1 h2
    | resume =>
      simp only [runQueue]
      exact ih { q with paused := false } h1 h2
    | clear =>
      simp only [runQueue]
      refine ih _ h1 ?_
      simp [Queue.depth]
      omega

/-- C5: at every queue reachable from `New d` with `d > 0`, `Enqueue`
returns `ErrQueueFull` exactly when the depth has reached `maxDepth`,
and then leaves the queue (its three sequences and `enqueuedTotal`)
unchanged; otherwise it appends the item at the tail of its priority
level — any priority other than `high`/`low` normalized to `normal` —
and increments `enqueuedTotal` by one; consequently the depth never
exceeds `maxDepth`. -/
theorem c5_enqueue_fullness (d : Int) (ops : List QOp) (item : Item) (hd : 0 < d) :
    ((runQueue (Queue.new d) ops).enqueue item = .queueFull ↔
      (runQueue (Queue.new d) ops).depth = d) ∧
    ((runQueue (Queue.new d) ops).enqueue item = .queueFull →
      runQueue (runQueue (Queue.new d) ops) [.enq item] = runQueue (Queue.new d) ops) ∧
    ((runQueue (Queue.new d) ops).depth < d →
      (item.priority = "high" →
        (runQueue (Queue.new d) ops).enqueue item =
          .enqueued { runQueue (Queue.new d) ops with
            high := (runQueue (Queue.new d) ops).high ++ [item],
            enqueuedTotal := (runQueue (Queue.new d) ops).enqueuedTotal + 1 }) ∧
      (item.priority = "low" →
        (runQueue (Queue.new d) ops).enqueue item =
          .enqueued { runQueue (Queue.new d) ops with
            low := (runQueue (Queue.new d) ops).low ++ [item],
            enqueuedTotal := (runQueue (Queue.new d) ops).enqueuedTotal + 1 }) ∧
      (item.priority ≠ "high" → item.priority ≠ "low" →
        (runQueue (Queue.new d) ops).enqueue item =
          .enqueued { runQueue (Queue.new d) ops with
            normal := (runQueue (Queue.new d) ops).normal ++
              [{ item with priority := "normal" }],
            enqueuedTotal := (runQueue (Queue.new d) ops).enqueuedTotal + 1 })) ∧
    (runQueue (Queue.new d) ops).depth ≤ d := by
  obtain ⟨hm, hdep⟩ := runQueue_preserves d hd ops (Queue.new d) rfl (by
    simp [Queue.new, Queue.depth]
    omega)
  refine ⟨?_, ?_, ?_, hdep⟩
  · rw [enqueue_full_iff, hm]
    omega
  · intro hfull
    simp only [runQueue, hfull]
  · intro hlt
    have hnotfull : ¬(runQueue (Queue.new d) ops).depth ≥
        (runQueue (Queue.new d) ops).maxDepth := by
      rw [hm]
      omega
    refine ⟨?_, ?_, ?_⟩
    · intro hp
      unfold Queue.enqueue
      rw [if_neg hnotfull, if_pos hp]
    · intro hp
      unfold Queue.enqueue
      rw [if_neg hnotfull, if_neg (by simp [hp]), if_pos hp]
    · intro hp1 hp2
      unfold Queue.enqueue
      rw [if_neg hnotfull, if_neg hp1, if_neg hp2]

/-- Witness for C5 at capacity `1`, the one-enqueue history, and a
second normal item which then finds the queue full. -/
theorem c5_enqueue_fullness_witness :
    (0 : Int) < 1 ∧
    (((runQueue (Queue.new 1) [.enq ⟨"a", "normal", 0, 0⟩]).enqueue
          ⟨"b", "normal", 0, 0⟩ = .queueFull ↔
        (runQueue (Queue.new 1) [.enq ⟨"a", "normal", 0, 0⟩]).depth = 1) ∧
      ((runQueue (Queue.new 1) [.enq ⟨"a", "normal", 0, 0⟩]).enqueue
          ⟨"b", "normal", 0, 0⟩ = .queueFull →
        runQueue (runQueue (Queue.new 1) [.enq ⟨"a", "normal", 0, 0⟩])
            [.enq ⟨"b", "normal", 0, 0⟩] =
          runQueue (Queue.new 1) [.enq ⟨"a", "normal", 0, 0⟩]) ∧
      ((runQueue (Queue.new 1) [.enq ⟨"a", "normal", 0, 0⟩]).depth < 1 →
        ((⟨"b", "normal", 0, 0⟩ : Item).priority = "high" →
          (runQueue (Queue.new 1) [.enq ⟨"a", "normal", 0, 0⟩]).enqueue
              ⟨"b", "normal", 0, 0⟩ =
            .enqueued { runQueue (Queue.new 1) [.enq ⟨"a", "normal", 0, 0⟩] with
              high := (runQueue (Queue.new 1) [.enq ⟨"a", "normal", 0, 0⟩]).high ++
                [⟨"b", "normal", 0, 0⟩],
              enqueuedTotal :=
                (runQueue (Queue.new 1) [.enq ⟨"a", "normal", 0, 0⟩]).enqueuedTotal + 1 }) ∧
        ((⟨"b", "normal", 0, 0⟩ : Item).priority = "low" →
          (runQueue (Queue.new 1) [.enq ⟨"a", "normal", 0, 0⟩]).enqueue
              ⟨"b", "normal", 0, 0⟩ =
            .enqueued { runQueue (Queue.new 1) [.enq ⟨"a", "normal", 0, 0⟩] with
              low := (runQueue (Queue.new 1) [.enq ⟨"a", "normal", 0, 0⟩]).low ++
                [⟨"b", "normal", 0, 0⟩],
              enqueuedTotal :=
                (runQueue (Queue.new 1) [.enq ⟨"a", "normal", 0, 0⟩]).enqueuedTotal + 1 }) ∧
        ((⟨"b", "normal", 0, 0⟩ : Item).priority ≠ "high" →
          (⟨"b", "normal", 0, 0⟩ : Item).priority ≠ "low" →
          (runQueue (Queue.new 1) [.enq ⟨"a", "normal", 0, 0⟩]).enqueue
              ⟨"b", "normal", 0, 0⟩ =
            .enqueued { runQueue (Queue.new 1) [.enq ⟨"a", "normal", 0, 0⟩] with
              normal := (runQueue (Queue.new 1) [.enq ⟨"a", "normal", 0, 0⟩]).normal ++
                [{ (⟨"b", "normal", 0, 0⟩ : Item) with priority := "normal" }],
              enqueuedTotal :=
                (runQueue (Queue.new 1) [.enq ⟨"a", "normal", 0, 0⟩]).enqueuedTotal + 1 })) ∧
      (runQueue (Queue.new 1) [.enq ⟨"a", "normal", 0, 0⟩]).depth ≤ 1) :=
  ⟨by decide,
    c5_enqueue_fullness 1 [.enq ⟨"a", "normal", 0, 0⟩] ⟨"b", "normal", 0, 0⟩ (by decide)⟩

/-- Appending the same element keeps the suffix relation. -/
theorem isSuffix_append_one {l full : List Item} (x : Item)
    (h : List.IsSuffix l full) : List.IsSuffix (l ++ [x]) (full ++ [x]) := by
  obtain ⟨s, hs⟩ := h
  exact ⟨s, by rw [← hs, List.append_assoc]⟩

/-- The tail of a suffix is a suffix. -/
theorem isSuffix_tail {i : Item} {l full : List Item}
    (h : List.IsSuffix (i :: l) full) : List.IsSuffix l full := by
  obtain ⟨s, hs⟩ := h
  exact ⟨s ++ [i], by rw [← hs]; simp⟩

/-- Invariant of an enqueue/dequeue-only history: the queue never
becomes paused, and each priority level's sequence is a suffix of the
recorded enqueue history for that level — so the level's head is the
first-enqueued item of the level still present, and service within a
level is FIFO. -/
theorem runQueueHist_inv (ops : List QOp) :
    ∀ (q : Queue) (hist : String → List Item),
      enqDeqOnly ops = true →
      q.paused = false →
      List.IsSuffix q.high (hist "high") →
      List.IsSuffix q.normal (hist "normal") →
      List.IsSuffix q.low (hist "low") →
      (runQueueHist q hist ops).1.paused = false ∧
      List.IsSuffix (runQueueHist q hist ops).1.high
        ((runQueueHist q hist ops).2 "high") ∧
      List.IsSuffix (runQueueHist q hist ops).1.normal
        ((runQueueHist q hist ops).2 "normal") ∧
      List.IsSuffix (runQueueHist q hist ops).1.low
        ((runQueueHist q hist ops).2 "low") := by
  induction ops with
  | nil =>
    intro q hist _ hp s1 s2 s3
    exact ⟨hp, s1, s2, s3⟩
  | cons op ops2 ih =>
    intro q hist hed hp s1 s2 s3
    cases op with
    | enq item =>
      have hed2 : enqDeqOnly ops2 = true := hed
      by_cases hfull : q.depth ≥ q.maxDepth
      · have he : q.enqueue item = .queueFull := (enqueue_full_iff q item).mpr hfull
        simp only [runQueueHist, he]
        exact ih q hist hed2 hp s1 s2 s3
      · by_cases h1 : item.priority = "high"
        · have he : q.enqueue item = .enqueued { q with high := q.high ++ [item], enqueuedTotal := q.enqueuedTotal + 1 } := by
            unfold Queue.enqueue
            rw [if_neg hfull, if_pos h1]
          have hlv : levelOf item = "high" := by simp [levelOf, h1]
          have hni : normItem item = item := by simp [normItem, h1]
          simp only [runQueueHist, he]
          refine ih _ _ hed2 hp ?_ ?_ ?_
          · simp only [hlv, hni]
            simpa using isSuffix_append_one item s1
          · simp [hlv]
            exact s2
          · simp [hlv]
            exact s3
        · by_cases h2 : item.priority = "low"
          · have he : q.enqueue item = .enqueued { q with low := q.low ++ [item], enqueuedTotal := q.enqueuedTotal + 1 } := by
              unfold Queue.enqueue
              rw [if_neg hfull, if_neg h1, if_pos h2]
            have hlv : levelOf item = "low" := by simp [levelOf, h1, h2]
            have hni : normItem item = item := by simp [normItem, h1, h2]
            simp only [runQueueHist, he]
            refine ih _ _ hed2 hp ?_ ?_ ?_
            · simp [hlv]
              exact s1
            · simp [hlv]
              exact s2
            · simp only [hlv, hni]
              simpa using isSuffix_append_one item s3
          · have he : q.enqueue item = .enqueued { q with normal := q.normal ++ [{ item with priority := "normal" }], enqueuedTotal := q.enqueuedTotal + 1 } := by
              unfold Queue.enqueue
              rw [if_neg hfull, if_neg h1, if_neg h2]
            have hlv : levelOf item = "normal" := by simp [levelOf, h1, h2]
            have hni : normItem item = { item with priority := "normal" } := by
              simp [normItem, h1, h2]
            simp only [runQueueHist, he]
            refine ih _ _ hed2 hp ?_ ?_ ?_
            · simp [hlv]
              exact s1
            · simp only [hlv, hni]
              simpa using isSuffix_append_one { item with priority := "normal" } s2
            · simp [hlv]
              exact s3
    | deq =>
      have hed2 : enqDeqOnly ops2 = true := hed
      cases hh : q.high with
      | cons i rest =>
        have hdq : q.dequeue = some (i, { q with high := rest }) := by
          unfold Queue.dequeue
          rw [if_neg (by simp [hp]), hh]
        simp only [runQueueHist, hdq]
        exact ih _ _ hed2 hp (isSuffix_tail (hh ▸ s1)) s2 s3
      | nil =>
        cases hn : q.normal with
        | cons i rest =>
          have hdq : q.dequeue = some (i, { q with normal := rest }) := by
            unfold Queue.dequeue
            rw [if_neg (by simp [hp]), hh, hn]
          simp only [runQueueHist, hdq]
          exact ih _ _ hed2 hp s1 (isSuffix_tail (hn ▸ s2)) s3
        | nil =>
          cases hl : q.low with
          | cons i rest =>
            have hdq : q.dequeue = some (i, { q with low := rest }) := by
              unfold Queue.dequeue
              rw [if_neg (by simp [hp]), hh, hn, hl]
            simp only [runQueueHist, hdq]
            exact ih _ _ hed2 hp s1 s2 (isSuffix_tail (hl ▸ s3))
          | nil =>
            have hdq : q.dequeue = none := by
              unfold Queue.dequeue
              rw [if_neg (by simp [hp]), hh, hn, hl]
            simp only [runQueueHist, hdq]
            exact ih q hist hed2 hp s1 s2 s3
    | pause => simp [enqDeqOnly] at hed
    | resume => simp [enqDeqOnly] at hed
    | clear => simp [enqDeqOnly] at hed

/-- C4: along any history of enqueues and dequeues (the queue never
paused), the queue stays unpaused; `Dequeue` takes the head of the
highest non-empty priority level — all `high` before any `normal`, all
`normal` before any `low` — and returns `none` exactly when all three
sequences are empty; each level's sequence is a suffix of that level's
enqueue history, so the head taken is always the first-enqueued item
of its level still in the queue (FIFO within the level); and on a
paused queue `Dequeue` returns `none` even when items are present. -/
theorem c4_dequeue_strict_priority_fifo (d : Int) (ops : List QOp)
    (hed : enqDeqOnly ops = true) :
    (runQueueHist (Queue.new d) (fun _ => []) ops).1.paused = false ∧
    ((runQueueHist (Queue.new d) (fun _ => []) ops).1.dequeue = none ↔
      ((runQueueHist (Queue.new d) (fun _ => []) ops).1.high = [] ∧
       (runQueueHist (Queue.new d) (fun _ => []) ops).1.normal = [] ∧
       (runQueueHist (Queue.new d) (fun _ => []) ops).1.low = [])) ∧
    (∀ i rest, (runQueueHist (Queue.new d) (fun _ => []) ops).1.high = i :: rest →
      (runQueueHist (Queue.new d) (fun _ => []) ops).1.dequeue =
        some (i, { (runQueueHist (Queue.new d) (fun _ => []) ops).1 with
          high := rest })) ∧
    (∀ i rest, (runQueueHist (Queue.new d) (fun _ => []) ops).1.high = [] →
      (runQueueHist (Queue.new d) (fun _ => []) ops).1.normal = i :: rest →
      (runQueueHist (Queue.new d) (fun _ => []) ops).1.dequeue =
        some (i, { (runQueueHist (Queue.new d) (fun _ => []) ops).1 with
          normal := rest })) ∧
    (∀ i rest, (runQueueHist (Queue.new d) (fun _ => []) ops).1.high = [] →
      (runQueueHist (Queue.new d) (fun _ => []) ops).1.normal = [] →
      (runQueueHist (Queue.new d) (fun _ => []) ops).1.low = i :: rest →
      (runQueueHist (Queue.new d) (fun _ => []) ops).1.dequeue =
        some (i, { (runQueueHist (Queue.new d) (fun _ => []) ops).1 with
          low := rest })) ∧
    List.IsSuffix (runQueueHist (Queue.new d) (fun _ => []) ops).1.high
      ((runQueueHist (Queue.new d) (fun _ => []) ops).2 "high") ∧
    List.IsSuffix (runQueueHist (Queue.new d) (fun _ => []) ops).1.normal
      ((runQueueHist (Queue.new d) (fun _ => []) ops).2 "normal") ∧
    List.IsSuffix (runQueueHist (Queue.new d) (fun _ => []) ops).1.low
      ((runQueueHist (Queue.new d) (fun _ => []) ops).2 "low") ∧
    (∀ q2 : Queue, q2.paused = true → q2.dequeue = none) := by
  obtain ⟨hp, s1, s2, s3⟩ :=
    runQueueHist_inv ops (Queue.new d) (fun _ => []) hed rfl
      ⟨[], rfl⟩ ⟨[], rfl⟩ ⟨[], rfl⟩
  refine ⟨hp, ?_, ?_, ?_, ?_, s1, s2, s3, ?_⟩
  · unfold Queue.dequeue
    rw [if_neg (by simp [hp])]
    cases (runQueueHist (Queue.new d) (fun _ => []) ops).1.high with
    | cons i rest => simp
    | nil =>
      cases (runQueueHist (Queue.new d) (fun _ => []) ops).1.normal with
      | cons i rest => simp
      | nil =>
        cases (runQueueHist (Queue.new d) (fun _ => []) ops).1.low with
        | cons i rest => simp
        | nil => simp
  · intro i rest hh
    unfold Queue.dequeue
    rw [if_neg (by simp [hp])]
    simp [hh]
  · intro i rest hh hn
    unfold Queue.dequeue
    rw [if_neg (by simp [hp])]
    simp [hh, hn]
  · intro i rest hh hn hl
    unfold Queue.dequeue
    rw [if_neg (by simp [hp])]
    simp [hh, hn, hl]
  · intro q2 hq2
    unfold Queue.dequeue
    rw [if_pos hq2]

/-- Witness for C4 at capacity `10` and the scenario history: enqueue
`low`, `normal`, `high` (in that order, priorities as named), then one
dequeue, which must return the `high` item. -/
theorem c4_dequeue_strict_priority_fifo_witness :
    enqDeqOnly [.enq ⟨"l", "low", 0, 0⟩, .enq ⟨"n", "normal", 0, 0⟩,
      .enq ⟨"h", "high", 0, 0⟩, .deq] = true ∧
    (runQueueHist (Queue.new 10) (fun _ => [])
      [.enq ⟨"l", "low", 0, 0⟩, .enq ⟨"n", "normal", 0, 0⟩,
        .enq ⟨"h", "high", 0, 0⟩, .deq]).1.paused = false ∧
    ((runQueueHist (Queue.new 10) (fun _ => [])
        [.enq ⟨"l", "low", 0, 0⟩, .enq ⟨"n", "normal", 0, 0⟩,
          .enq ⟨"h", "high", 0, 0⟩, .deq]).1.dequeue = none ↔
      ((runQueueHist (Queue.new 10) (fun _ => [])
          [.enq ⟨"l", "low", 0, 0⟩, .enq ⟨"n", "normal", 0, 0⟩,
            .enq ⟨"h", "high", 0, 0⟩, .deq]).1.high = [] ∧
        (runQueueHist (Queue.new 10) (fun _ => [])
          [.enq ⟨"l", "low", 0, 0⟩, .enq ⟨"n", "normal", 0, 0⟩,
            .enq ⟨"h", "high", 0, 0⟩, .deq]).1.normal = [] ∧
        (runQueueHist (Queue.new 10) (fun _ => [])
          [.enq ⟨"l", "low", 0, 0⟩, .enq ⟨"n", "normal", 0, 0⟩,
            .enq ⟨"h", "high", 0, 0⟩, .deq]).1.low = [])) :=
  have h := c4_dequeue_strict_priority_fifo 10
    [.enq ⟨"l", "low", 0, 0⟩, .enq ⟨"n", "normal", 0, 0⟩,
      .enq ⟨"h", "high", 0, 0⟩, .deq] (by decide)
  ⟨by decide, h.1, h.2.1⟩

/-- C8: for each workload handler (`/cpu`, `/memory`, `/io`, `/work`),
an over-cap request whose remaining parameters are valid and whose
admission succeeds gets a success response with `limit_applied = true`
and the capped value echoed in place of the requested one — in
particular `/io` with `size=1GB` under a 1 KiB cap answers with
`requested_size = 1024` — while an over-cap request with an invalid
parameter fails with `INVALID_PARAMETER` regardless of the tracker,
because the cap sits after parameter validation and before
admission. -/
theorem c8_caps_after_validation_before_admission (t : Tracker)
    (hcpu : (t.acquire "cpu").isAcquired = true)
    (hmem : (t.acquire "memory").isAcquired = true)
    (hio : (t.acquire "io").isAcquired = true)
    (hwork : (t.acquire "work").isAcquired = true) :
    (∀ maxD d cores intens, 0 ≤ d → 0 < maxD → maxD < d → 1 ≤ cores →
      (intens = "low" ∨ intens = "medium" ∨ intens = "high") →
      cpuEndpoint t maxD (some d) (some cores) intens = .ok ⟨maxD, cores, intens, true⟩) ∧
    (∀ maxS sizeRaw n dur pat, parseSizeParam sizeRaw (10 * 2 ^ 20) = .ok n →
      0 ≤ n → 0 < maxS → maxS < n → 0 ≤ dur →
      (pat = "zero" ∨ pat = "random" ∨ pat = "sequential") →
      memoryEndpoint t maxS sizeRaw (some dur) pat = .ok ⟨maxS, dur, pat, true⟩) ∧
    (∀ maxS sizeRaw n oper b syncRaw, parseSizeParam sizeRaw (10 * 2 ^ 20) = .ok n →
      0 ≤ n → 0 < maxS → maxS < n →
      (oper = "write" ∨ oper = "read" ∨ oper = "mixed") →
      (if syncRaw = "" then some false else parseBoolGo syncRaw) = some b →
      ioEndpoint t maxS sizeRaw oper syncRaw = .ok ⟨maxS, oper, b, true⟩) ∧
    (ioEndpoint t 1024 "1GB" "" "" = .ok ⟨1024, "write", false, true⟩) ∧
    (∀ maxC maxM pn p vr v oCpu oMem, workProfiles pn = some p → vr ≠ "" →
      0 ≤ v → v ≤ 1 →
      0 < maxC → maxC < applyVariance p.cpuDuration v oCpu →
      0 < maxM → maxM < applyVariance p.memorySize v oMem →
      workEndpoint t maxC maxM pn vr (some v) oCpu oMem = .ok ⟨pn, maxC, maxM, true⟩) ∧
    (∀ (t2 : Tracker) maxD d, 0 < maxD → maxD < d →
      cpuEndpoint t2 maxD (some d) (some 0) "" = .invalidParameter) ∧
    (∀ (t2 : Tracker) maxS sizeRaw n, parseSizeParam sizeRaw (10 * 2 ^ 20) = .ok n →
      0 < maxS → maxS < n →
      ioEndpoint t2 maxS sizeRaw "bogus" "" = .invalidParameter) := by
  refine ⟨?_, ?_, ?_, ?_, ?_, ?_, ?_⟩
  · intro maxD d cores intens h0 hm hd hc hint
    have hd0 : ¬d < 0 := by omega
    have hc0 : ¬cores < 1 := by omega
    have hcap : maxD > 0 ∧ d > maxD := ⟨hm, hd⟩
    cases hacq : t.acquire "cpu" with
    | acquired t2 =>
      rcases hint with rfl | rfl | rfl <;>
        simp [cpuEndpoint, hd0, hc0, hcap, hacq]
    | nilPanic => rw [hacq] at hcpu; simp [AcquireResult.isAcquired] at hcpu
    | tooManyOps => rw [hacq] at hcpu; simp [AcquireResult.isAcquired] at hcpu
  · intro maxS sizeRaw n dur pat hps hn hm hs hdur hpat
    norm_num at hps
    have hn0 : ¬n < 0 := by omega
    have hd0 : ¬dur < 0 := by omega
    have hcap : maxS > 0 ∧ n > maxS := ⟨hm, hs⟩
    cases hacq : t.acquire "memory" with
    | acquired t2 =>
      rcases hpat with rfl | rfl | rfl <;>
        simp [memoryEndpoint, hps, hn0, hd0, hcap, hacq]
    | nilPanic => rw [hacq] at hmem; simp [AcquireResult.isAcquired] at hmem
    | tooManyOps => rw [hacq] at hmem; simp [AcquireResult.isAcquired] at hmem
  · intro maxS sizeRaw n oper b syncRaw hps hn hm hs hop hsync
    norm_num at hps
    have hn0 : ¬n < 0 := by omega
    have hcap : maxS > 0 ∧ n > maxS := ⟨hm, hs⟩
    cases hacq : t.acquire "io" with
    | acquired t2 =>
      rcases hop with rfl | rfl | rfl <;>
        simp [ioEndpoint, hps, hn0, hcap, hacq, hsync]
    | nilPanic => rw [hacq] at hio; simp [AcquireResult.isAcquired] at hio
    | tooManyOps => rw [hacq] at hio; simp [AcquireResult.isAcquired] at hio
  · have hps : parseSizeParam "1GB" 10485760 = .ok 1073741824 := by decide
    cases hacq : t.acquire "io" with
    | acquired t2 =>
      simp [ioEndpoint, hps, hacq]
    | nilPanic => rw [hacq] at hio; simp [AcquireResult.isAcquired] at hio
    | tooManyOps => rw [hacq] at hio; simp [AcquireResult.isAcquired] at hio
  · intro maxC maxM pn p vr v oCpu oMem hpn hvr h0 h1 hmc hcv hmm hmv
    have hv0 : ¬(v < 0 ∨ v > 1) := by
      push_neg
      exact ⟨h0, h1⟩
    have hpn2 : pn ≠ "" := by
      intro h
      rw [h] at hpn
      simp [workProfiles] at hpn
    have hcap1 : maxC > 0 ∧ applyVariance p.cpuDuration v oCpu > maxC := ⟨hmc, hcv⟩
    have hcap2 : maxM > 0 ∧ applyVariance p.memorySize v oMem > maxM := ⟨hmm, hmv⟩
    cases hacq : t.acquire "work" with
    | acquired t2 =>
      simp [workEndpoint, hpn2, hpn, hvr, hv0, hcap1, hcap2, hacq]
    | nilPanic => rw [hacq] at hwork; simp [AcquireResult.isAcquired] at hwork
    | tooManyOps => rw [hacq] at hwork; simp [AcquireResult.isAcquired] at hwork
  · intro t2 maxD d _ _
    simp [cpuEndpoint]
  · intro t2 maxS sizeRaw n hps _ _
    norm_num at hps
    simp [ioEndpoint, hps]

/-- Witness for C8 at a fresh tracker with cap `100`, where every
class admits. -/
theorem c8_caps_after_validation_before_admission_witness :
    (((NewTracker 100).acquire "cpu").isAcquired = true ∧
      ((NewTracker 100).acquire "memory").isAcquired = true ∧
      ((NewTracker 100).acquire "io").isAcquired = true ∧
      ((NewTracker 100).acquire "work").isAcquired = true) ∧
    (ioEndpoint (NewTracker 100) 1024 "1GB" "" "" = .ok ⟨1024, "write", false, true⟩) ∧
    (∀ maxD d cores intens, 0 ≤ d → 0 < maxD → maxD < d → 1 ≤ cores →
      (intens = "low" ∨ intens = "medium" ∨ intens = "high") →
      cpuEndpoint (NewTracker 100) maxD (some d) (some cores) intens =
        .ok ⟨maxD, cores, intens, true⟩) :=
  have h := c8_caps_after_validation_before_admission (NewTracker 100)
    (by decide) (by decide) (by decide) (by decide)
  ⟨⟨by decide, by decide, by decide, by decide⟩, h.2.2.2.1, h.1⟩

end Hotpod
